import Mathlib

/-!
Verification of the memorybench repository (graphlit/memorybench).

This file gives a shallow embedding, in Lean 4, of the parts of the
repository that the verified claims are about:

* `src/providers/graphlit/index.ts` — the Graphlit provider
  (`getConversationContainerTag`, `getOrCreateCollection`, `ingest`,
  `awaitIndexing`, `clear`).  The network-bound `graphlit-client` calls
  are modelled as oracle functions returning `Except`, so that a call
  either produces a value or raises an error, exactly as an awaited
  promise does.
* `benchmarks/LongMemEval/scripts/evaluate/evaluate.ts` — the evaluation
  script (`deduplicateAndSortChunks`, `generateAnswer`, `judgeAnswer`,
  `evaluateQuestion`, and the resume/aggregation loop of `evaluateAll`).
  The two model calls (`generateText` for answering and judging) are
  oracles; the regex-plus-JSON extraction of the judge verdict is an
  oracle `parse` function returning `Option`.
* `src/cli/commands/cleanup.ts` — the per-run clearing loop of
  `cleanupCommand`.

JavaScript `number` indices and labels are modelled as `Int`, wall-clock
milliseconds as `Nat`, and accuracy percentages as `ℚ` (for the one
claim where the IEEE double computed by the script and the exact
rational round to the same two-decimal string, this is noted at the
theorem).  JavaScript strings are Lean `String`s; `Array.prototype.sort`
(required stable by the ES spec) is modelled by the stable
`List.insertionSort`.
-/

/-! ## Generic first-occurrence deduplication

Both `deduplicateAndSortChunks` (which keeps a chunk iff its index is
the `findIndex` of its `content`, i.e. the first occurrence of each
content) and `cleanupCommand` (which builds `[...new Set(tags)]`,
preserving first occurrences in insertion order) deduplicate a list by a
key, keeping the first occurrence.  `dedupByGo key seen l` traverses `l`
left to right and keeps an element iff its key was not seen before. -/

def dedupByGo {α β : Type} [DecidableEq β] (key : α → β) (seen : List β) : List α → List α
  | [] => []
  | a :: as => if key a ∈ seen then dedupByGo key seen as else a :: dedupByGo key (key a :: seen) as

def dedupBy {α β : Type} [DecidableEq β] (key : α → β) (l : List α) : List α :=
  dedupByGo key [] l

theorem dedupByGo_subset {α β : Type} [DecidableEq β] (key : α → β) (seen : List β)
    (l : List α) : dedupByGo key seen l ⊆ l := by
  induction l generalizing seen with
  | nil => simp [dedupByGo]
  | cons a as ih =>
    intro x hx
    simp only [dedupByGo] at hx
    split at hx
    · exact List.mem_cons_of_mem a (ih seen hx)
    · rcases List.mem_cons.mp hx with h | h
      · exact h ▸ List.mem_cons_self a as
      · exact List.mem_cons_of_mem a (ih _ h)

theorem key_notMem_of_mem_dedupByGo {α β : Type} [DecidableEq β] {key : α → β}
    {seen : List β} {l : List α} {a : α} (h : a ∈ dedupByGo key seen l) : key a ∉ seen := by
  induction l generalizing seen with
  | nil => simp [dedupByGo] at h
  | cons b bs ih =>
    simp only [dedupByGo] at h
    split at h
    · exact ih h
    · rcases List.mem_cons.mp h with h' | h'
      · subst h'; assumption
      · intro hmem
        exact ih h' (List.mem_cons_of_mem _ hmem)

theorem pairwise_dedupByGo {α β : Type} [DecidableEq β] (key : α → β) (seen : List β)
    (l : List α) : (dedupByGo key seen l).Pairwise (fun a b => key a ≠ key b) := by
  induction l generalizing seen with
  | nil => simp [dedupByGo]
  | cons a as ih =>
    simp only [dedupByGo]
    split
    · exact ih seen
    · refine List.Pairwise.cons (fun b hb => ?_) (ih (key a :: seen))
      have := key_notMem_of_mem_dedupByGo hb
      intro hk
      exact this (hk ▸ List.mem_cons_self _ _)

theorem find?_dedupByGo {α β : Type} [DecidableEq β] {key : α → β}
    {seen : List β} {l : List α} {a : α} (h : a ∈ dedupByGo key seen l) :
    l.find? (fun d => key d == key a) = some a := by
  induction l generalizing seen with
  | nil => simp [dedupByGo] at h
  | cons b bs ih =>
    simp only [dedupByGo] at h
    split at h
    · have hne : key b ≠ key a := by
        intro hk
        exact key_notMem_of_mem_dedupByGo h (hk ▸ (by assumption))
      rw [List.find?_cons_of_neg _ (by simpa using hne)]
      exact ih h
    · rcases List.mem_cons.mp h with h' | h'
      · subst h'
        rw [List.find?_cons_of_pos _ (by simp)]
      · have hnotseen := key_notMem_of_mem_dedupByGo h'
        have hne : key b ≠ key a := by
          intro hk
          exact hnotseen (hk ▸ List.mem_cons_self _ _)
        rw [List.find?_cons_of_neg _ (by simpa using hne)]
        exact ih h'

theorem exists_mem_dedupByGo {α β : Type} [DecidableEq β] {key : α → β}
    {seen : List β} {l : List α} {a : α} (h : a ∈ l) (hs : key a ∉ seen) :
    ∃ b ∈ dedupByGo key seen l, key b = key a := by
  induction l generalizing seen with
  | nil => simp at h
  | cons b bs ih =>
    simp only [dedupByGo]
    rcases List.mem_cons.mp h with h' | h'
    · subst h'
      split
    -- repeated below
      · next hmem => exact absurd hmem hs
      · exact ⟨a, List.mem_cons_self _ _, rfl⟩
    · split
      · exact ih h' hs
      · next hmem =>
        by_cases hk : key b = key a
        · exact ⟨b, List.mem_cons_self _ _, hk⟩
        · have : key a ∉ key b :: seen := by
            intro hx
            rcases List.mem_cons.mp hx with hx | hx
            · exact hk hx.symm
            · exact hs hx
          obtain ⟨c, hc, hck⟩ := ih h' this
          exact ⟨c, List.mem_cons_of_mem _ hc, hck⟩

theorem dedupByGo_eq_self {α β : Type} [DecidableEq β] {key : α → β}
    {seen : List β} {l : List α} (hseen : ∀ a ∈ l, key a ∉ seen)
    (hpw : l.Pairwise (fun a b => key a ≠ key b)) : dedupByGo key seen l = l := by
  induction l generalizing seen with
  | nil => rfl
  | cons a as ih =>
    simp only [dedupByGo]
    rw [if_neg (hseen a (List.mem_cons_self _ _))]
    congr 1
    refine ih (fun b hb => ?_) (List.Pairwise.of_cons hpw)
    intro hx
    rcases List.mem_cons.mp hx with hx | hx
    · exact (List.pairwise_cons.mp hpw).1 b hb hx.symm
    · exact hseen b (List.mem_cons_of_mem _ hb) hx

/-! ## evaluate.ts: `deduplicateAndSortChunks`

```ts
interface Chunk { content: string; position: number; }
function deduplicateAndSortChunks(chunks: Chunk[]): Chunk[] {
    const uniqueChunks = chunks.filter((chunk, index, self) =>
        index === self.findIndex((c) => c.content === chunk.content)
    );
    return uniqueChunks.sort((a, b) => a.position - b.position);
}
```

Keeping an element iff its index equals the first index with the same
`content` is exactly first-occurrence deduplication keyed by `content`.
The comparator `a.position - b.position` orders by `position`;
`Array.prototype.sort` is stable, modelled by `List.insertionSort`. -/

structure Chunk where
  content : String
  position : Int
deriving DecidableEq, Repr

def chunkPosLe (a b : Chunk) : Prop := a.position ≤ b.position

instance : DecidableRel chunkPosLe := fun a b => inferInstanceAs (Decidable (a.position ≤ b.position))

instance : IsTotal Chunk chunkPosLe := ⟨fun a b => le_total a.position b.position⟩

instance : IsTrans Chunk chunkPosLe := ⟨fun _ _ _ hab hbc => le_trans hab hbc⟩

def deduplicateAndSortChunks (chunks : List Chunk) : List Chunk :=
  List.insertionSort chunkPosLe (dedupBy (fun c => c.content) chunks)

/-- Claim C9: `deduplicateAndSortChunks` returns, for every input list of
chunks, a list in which no two elements have equal content (each element
being the first occurrence of its content in input order), sorted by
position in nondecreasing order, with every output element drawn from
the input and every input content represented; consequently the function
is idempotent. -/
theorem deduplicateAndSortChunks_spec (l : List Chunk) :
    (deduplicateAndSortChunks l).Pairwise (fun a b => a.content ≠ b.content)
    ∧ (deduplicateAndSortChunks l).Sorted chunkPosLe
    ∧ deduplicateAndSortChunks l ⊆ l
    ∧ (∀ c ∈ deduplicateAndSortChunks l, l.find? (fun d => d.content == c.content) = some c)
    ∧ (∀ c ∈ l, ∃ d ∈ deduplicateAndSortChunks l, d.content = c.content)
    ∧ deduplicateAndSortChunks (deduplicateAndSortChunks l) = deduplicateAndSortChunks l := by
  have hperm : (deduplicateAndSortChunks l).Perm (dedupBy (fun c => c.content) l) :=
    List.perm_insertionSort chunkPosLe _
  have hpw : (deduplicateAndSortChunks l).Pairwise (fun a b => a.content ≠ b.content) := by
    have := pairwise_dedupByGo (fun c : Chunk => c.content) [] l
    exact (List.Perm.pairwise_iff (fun h he => h he.symm) hperm).mpr this
  have hsorted : (deduplicateAndSortChunks l).Sorted chunkPosLe :=
    List.sorted_insertionSort chunkPosLe _
  refine ⟨hpw, hsorted, ?_, ?_, ?_, ?_⟩
  · intro x hx
    exact dedupByGo_subset _ _ _ (hperm.subset hx)
  · intro c hc
    exact find?_dedupByGo (hperm.subset hc)
  · intro c hc
    obtain ⟨d, hd, hdk⟩ := @exists_mem_dedupByGo Chunk String _ (fun c => c.content) [] l c hc
      (List.not_mem_nil _)
    exact ⟨d, hperm.mem_iff.mpr hd, hdk⟩
  · show List.insertionSort chunkPosLe
      (dedupByGo (fun c => c.content) [] (deduplicateAndSortChunks l)) = _
    rw [dedupByGo_eq_self (fun a _ => List.not_mem_nil _) hpw]
    exact List.Sorted.insertionSort_eq hsorted

/-- Concrete instantiation of `deduplicateAndSortChunks_spec`: on
`[{content:"b",position:2}, {content:"a",position:1}, {content:"b",position:5}]`
the first occurrence of content `"a"` is found, and the function is
idempotent. -/
theorem deduplicateAndSortChunks_spec_witness :
    List.find? (fun d => d.content == (⟨"a", 1⟩ : Chunk).content)
      [(⟨"b", 2⟩ : Chunk), ⟨"a", 1⟩, ⟨"b", 5⟩] = some ⟨"a", 1⟩
    ∧ deduplicateAndSortChunks (deduplicateAndSortChunks [⟨"b", 2⟩, ⟨"a", 1⟩, ⟨"b", 5⟩])
      = deduplicateAndSortChunks [⟨"b", 2⟩, ⟨"a", 1⟩, ⟨"b", 5⟩] :=
  ⟨(deduplicateAndSortChunks_spec [⟨"b", 2⟩, ⟨"a", 1⟩, ⟨"b", 5⟩]).2.2.2.1 ⟨"a", 1⟩ (by decide),
   (deduplicateAndSortChunks_spec [⟨"b", 2⟩, ⟨"a", 1⟩, ⟨"b", 5⟩]).2.2.2.2.2⟩

/-! ## graphlit provider: `getConversationContainerTag`

```ts
// containerTag format: "{questionId}-{runId}" where questionId is like "conv-26-q0"
private getConversationContainerTag(containerTag: string): string {
    const parts = containerTag.split("-q")
    if (parts.length >= 2) {
        const convId = parts[0]
        const rest = parts[1].split("-").slice(1).join("-")
        return `${convId}-${rest}`
    }
    return containerTag
}
```

`String.prototype.split` with a non-empty separator cuts at every
leftmost non-overlapping occurrence.  The two separators used by the
source are the literals `"-q"` and `"-"`, embedded as the structural
scanners `splitDQ` and `splitDash` over `List Char`; `joinDash` is
`Array.prototype.join("-")`. -/

def consHead (c : Char) : List (List Char) → List (List Char)
  | [] => [[c]]
  | p :: ps => (c :: p) :: ps

def splitDQ : List Char → List (List Char)
  | [] => [[]]
  | [c] => [[c]]
  | c₁ :: c₂ :: t =>
    if c₁ = '-' ∧ c₂ = 'q' then [] :: splitDQ t
    else consHead c₁ (splitDQ (c₂ :: t))

def splitDash : List Char → List (List Char)
  | [] => [[]]
  | c :: t => if c = '-' then [] :: splitDash t else consHead c (splitDash t)

def joinDash : List (List Char) → List Char
  | [] => []
  | [p] => p
  | p :: ps => p ++ '-' :: joinDash ps

/-- Whether the two-character separator `"-q"` occurs in a string. -/
def containsDQ : List Char → Bool
  | [] => false
  | [_] => false
  | c₁ :: c₂ :: t => (c₁ = '-' && c₂ = 'q') || containsDQ (c₂ :: t)

def getConversationContainerTag (containerTag : String) : String :=
  match splitDQ containerTag.toList with
  | p0 :: p1 :: _ => String.mk (p0 ++ '-' :: joinDash ((splitDash p1).drop 1))
  | _ => containerTag

theorem splitDash_ne_nil (l : List Char) : splitDash l ≠ [] := by
  induction l with
  | nil => simp [splitDash]
  | cons c t ih =>
    simp only [splitDash]
    split
    · simp
    · match h : splitDash t with
      | [] => exact absurd h ih
      | p :: ps => simp [consHead]

theorem splitDQ_of_not_containsDQ {l : List Char} (h : containsDQ l = false) :
    splitDQ l = [l] := by
  induction l using containsDQ.induct with
  | case1 => rfl
  | case2 c => rfl
  | case3 c₁ c₂ t ih =>
    simp only [containsDQ, Bool.or_eq_false_iff, Bool.and_eq_false_iff] at h
    simp only [splitDQ]
    rw [if_neg, ih h.2]
    · rfl
    · rcases h.1 with h' | h' <;> simp [decide_eq_false_iff_not] at h' <;> simp [h']

theorem splitDQ_append {a : List Char} (b : List Char) (h : containsDQ a = false) :
    splitDQ (a ++ '-' :: 'q' :: b) = a :: splitDQ b := by
  induction a using containsDQ.induct with
  | case1 => simp [splitDQ]
  | case2 c =>
    show splitDQ (c :: '-' :: 'q' :: b) = [c] :: splitDQ b
    simp [splitDQ, consHead]
  | case3 c₁ c₂ t ih =>
    simp only [containsDQ, Bool.or_eq_false_iff, Bool.and_eq_false_iff] at h
    show splitDQ (c₁ :: c₂ :: (t ++ '-' :: 'q' :: b)) = (c₁ :: c₂ :: t) :: splitDQ b
    simp only [splitDQ]
    rw [if_neg]
    · have := ih h.2
      rw [show c₂ :: (t ++ '-' :: 'q' :: b) = (c₂ :: t) ++ '-' :: 'q' :: b from rfl, this]
      rfl
    · rcases h.1 with h' | h' <;> simp [decide_eq_false_iff_not] at h' <;> simp [h']

theorem splitDash_append {n : List Char} (rest : List Char) (h : '-' ∉ n) :
    splitDash (n ++ '-' :: rest) = n :: splitDash rest := by
  induction n with
  | nil => simp [splitDash]
  | cons c t ih =>
    have hc : c ≠ '-' := fun hx => h (hx ▸ List.mem_cons_self _ _)
    have ht : '-' ∉ t := fun hx => h (List.mem_cons_of_mem _ hx)
    show splitDash (c :: (t ++ '-' :: rest)) = (c :: t) :: splitDash rest
    simp only [splitDash]
    rw [if_neg hc, ih ht]
    rfl

theorem joinDash_consHead (c : Char) {L : List (List Char)} (h : L ≠ []) :
    joinDash (consHead c L) = c :: joinDash L := by
  match L with
  | [] => exact absurd rfl h
  | [p] => rfl
  | p :: q :: qs => rfl

theorem joinDash_splitDash (s : List Char) : joinDash (splitDash s) = s := by
  induction s with
  | nil => rfl
  | cons c t ih =>
    simp only [splitDash]
    split
    · next hc =>
      subst hc
      match h : splitDash t with
      | [] => exact absurd h (splitDash_ne_nil t)
      | p :: ps =>
        show joinDash ([] :: p :: ps) = '-' :: t
        show [] ++ '-' :: joinDash (p :: ps) = '-' :: t
        rw [List.nil_append, ← h, ih]
    · rw [joinDash_consHead c (splitDash_ne_nil t), ih]

/-- Claim C10 (counterexample): the claim asserts that for every tag of
the form `{convId}-q{n}-{rest}` the function returns `{convId}-{rest}`.
Take `convId = "conv-1"`, `n = "0"`, `rest = "run-quick"`: the tag is
`"conv-1-q0-run-quick"`, but because `"-quick"` contains a second
occurrence of the separator `"-q"`, `split("-q")` cuts there too and the
function returns `"conv-1-run"`, not `"conv-1-run-quick"`. -/
theorem getConversationContainerTag_counterexample :
    ("conv-1" : String) ++ "-q" ++ "0" ++ "-" ++ "run-quick" = "conv-1-q0-run-quick"
    ∧ getConversationContainerTag ("conv-1-q0-run-quick") = "conv-1-run"
    ∧ ("conv-1-run" : String) ≠ "conv-1" ++ "-" ++ "run-quick" := by
  refine ⟨rfl, ?_, by decide⟩
  decide

/-- Claim C10 (amended): `getConversationContainerTag` is a pure function
of the tag string.  For every tag of the form `{convId}-q{n}-{rest}` in
which the separator `"-q"` occurs nowhere except at the shown boundary
(no occurrence inside `convId` or inside `{n}-{rest}`) and `n` contains
no `"-"`, it returns `{convId}-{rest}`; and for every tag not containing
`"-q"` it returns the input unchanged. -/
theorem getConversationContainerTag_spec (convId n rest tag : String)
    (h1 : containsDQ convId.toList = false)
    (h2 : '-' ∉ n.toList)
    (h3 : containsDQ (n.toList ++ '-' :: rest.toList) = false)
    (h4 : containsDQ tag.toList = false) :
    getConversationContainerTag (convId ++ "-q" ++ n ++ "-" ++ rest) = convId ++ "-" ++ rest
    ∧ getConversationContainerTag tag = tag := by
  constructor
  · have happ : ∀ a b : String, (a ++ b).toList = a.toList ++ b.toList := fun _ _ => rfl
    have hdq : ("-q" : String).toList = ['-', 'q'] := rfl
    have hd : ("-" : String).toList = ['-'] := rfl
    have hlist : (convId ++ "-q" ++ n ++ "-" ++ rest).toList
        = convId.toList ++ '-' :: 'q' :: (n.toList ++ '-' :: rest.toList) := by
      simp [happ, hdq, hd]
    unfold getConversationContainerTag
    rw [hlist, splitDQ_append _ h1, splitDQ_of_not_containsDQ h3]
    show String.mk (convId.toList
      ++ '-' :: joinDash ((splitDash (n.toList ++ '-' :: rest.toList)).drop 1)) = _
    rw [splitDash_append _ h2]
    show String.mk (convId.toList ++ '-' :: joinDash (splitDash rest.toList))
      = convId ++ "-" ++ rest
    rw [joinDash_splitDash]
    show String.mk (convId.toList ++ '-' :: rest.toList)
      = String.mk ((convId.toList ++ ['-']) ++ rest.toList)
    exact congrArg String.mk (by simp)
  · unfold getConversationContainerTag
    rw [splitDQ_of_not_containsDQ h4]

/-- Concrete instantiation of `getConversationContainerTag_spec`: the
tag `"conv-26-q0-run-xyz"` maps to `"conv-26-run-xyz"`, and a tag
without `"-q"` is returned unchanged. -/
theorem getConversationContainerTag_spec_witness :
    getConversationContainerTag (("conv-26" : String) ++ "-q" ++ "0" ++ "-" ++ "run-xyz")
      = ("conv-26" : String) ++ "-" ++ "run-xyz"
    ∧ getConversationContainerTag ("plain-tag") = "plain-tag" :=
  getConversationContainerTag_spec ("conv-26") ("0") ("run-xyz") ("plain-tag")
    (by decide) (by decide) (by decide) (by decide)

/-! ## graphlit provider: client model and state

The provider (`src/providers/graphlit/index.ts`) holds
`collectionCache : Map<string, string>` (collection name → id) and
`ingestedSessions : Set<string>` (session ids ingested by this provider
instance).  The network client `graphlit-client` is an external
collaborator; each method the provider uses is modelled as an oracle
returning `Except String`, a raised exception being `Except.error`:

* `queryCollections name` — the id of the collection whose name is an
  exact match, when one exists (the source queries and then filters for
  an exact name match);
* `createCollection name` — `result.createCollection?.id`;
* `ingestText sessionId` — `result.ingestText?.id` for the document
  built from that session;
* `isContentDone contentId elapsed` — indexing status polled at
  `elapsed` milliseconds after `awaitIndexing` started;
* `deleteAllContents id`, `deleteCollection id`.

The `Map` is an association list looked up front-to-back (`set` conses,
`delete` removes the key), the `Set` a list queried by membership. -/

structure GraphlitClient where
  queryCollections : String → Except String (Option String)
  createCollection : String → Except String (Option String)
  ingestText : String → Except String (Option String)
  isContentDone : String → Nat → Except String Bool
  deleteAllContents : String → Except String Unit
  deleteCollection : String → Except String Unit

structure UnifiedSession where
  sessionId : String
deriving DecidableEq, Repr

structure ProviderState where
  collectionCache : List (String × String)
  ingestedSessions : List String
deriving DecidableEq, Repr

def getOrCreateCollection (cl : GraphlitClient) (st : ProviderState) (name : String) :
    Except String (String × ProviderState) :=
  match st.collectionCache.lookup name with
  | some id => Except.ok (id, st)
  | none =>
    match cl.queryCollections name with
    | Except.error e => Except.error e
    | Except.ok (some id) =>
      Except.ok (id, { st with collectionCache := (name, id) :: st.collectionCache })
    | Except.ok none =>
      match cl.createCollection name with
      | Except.error e => Except.error e
      | Except.ok none => Except.error ("Failed to create collection: " ++ name)
      | Except.ok (some id) =>
        Except.ok (id, { st with collectionCache := (name, id) :: st.collectionCache })

/-! ## graphlit provider: `ingest` (C5)

```ts
async ingest(sessions, options) {
    const convContainerTag = this.getConversationContainerTag(options.containerTag)
    const collectionId = await this.getOrCreateCollection(convContainerTag)
    const documentIds: string[] = []
    for (const session of sessions) {
        if (this.ingestedSessions.has(session.sessionId)) { continue }
        const result = await this.client.ingestText(...)
        if (result.ingestText?.id) {
            documentIds.push(result.ingestText.id)
            this.ingestedSessions.add(session.sessionId)
        }
    }
    return { documentIds }
}
```

`ingestGo` returns the updated provider state, the `documentIds`, and —
as observable instrumentation — the number of `ingestText` calls made. -/

def ingestGo (cl : GraphlitClient) :
    List UnifiedSession → ProviderState → Except String (ProviderState × List String × Nat)
  | [], st => Except.ok (st, [], 0)
  | s :: ss, st =>
    if s.sessionId ∈ st.ingestedSessions then
      ingestGo cl ss st
    else
      match cl.ingestText s.sessionId with
      | Except.error e => Except.error e
      | Except.ok none =>
        match ingestGo cl ss st with
        | Except.error e => Except.error e
        | Except.ok (st', ids, k) => Except.ok (st', ids, k + 1)
      | Except.ok (some id) =>
        match ingestGo cl ss { st with ingestedSessions := s.sessionId :: st.ingestedSessions } with
        | Except.error e => Except.error e
        | Except.ok (st', ids, k) => Except.ok (st', id :: ids, k + 1)

def ingest (cl : GraphlitClient) (st : ProviderState) (sessions : List UnifiedSession)
    (containerTag : String) : Except String (ProviderState × List String × Nat) :=
  match getOrCreateCollection cl st (getConversationContainerTag containerTag) with
  | Except.error e => Except.error e
  | Except.ok (_, st') => ingestGo cl sessions st'

theorem ingestGo_cache_const {cl : GraphlitClient} {ss : List UnifiedSession}
    {st st' : ProviderState} {ids : List String} {k : Nat}
    (h : ingestGo cl ss st = Except.ok (st', ids, k)) :
    st'.collectionCache = st.collectionCache := by
  induction ss generalizing st ids k with
  | nil =>
    simp only [ingestGo] at h
    cases h
    rfl
  | cons s ss ih =>
    simp only [ingestGo] at h
    split at h
    · exact ih h
    · cases hit : cl.ingestText s.sessionId with
      | error e => rw [hit] at h; cases h
      | ok oid =>
        rw [hit] at h
        cases oid with
        | none =>
          cases hrec : ingestGo cl ss st with
          | error e => rw [hrec] at h; cases h
          | ok v =>
            obtain ⟨st'', ids', k'⟩ := v
            rw [hrec] at h
            cases h
            exact ih hrec
        | some id =>
          cases hrec : ingestGo cl ss
              { st with ingestedSessions := s.sessionId :: st.ingestedSessions } with
          | error e => rw [hrec] at h; cases h
          | ok v =>
            obtain ⟨st'', ids', k'⟩ := v
            rw [hrec] at h
            cases h
            have hx := ih hrec
            exact hx

theorem ingestGo_sessions_done {cl : GraphlitClient} {ss : List UnifiedSession}
    {st st' : ProviderState} {ids : List String} {k : Nat}
    (h : ingestGo cl ss st = Except.ok (st', ids, k))
    (hok : ∀ s ∈ ss, ∃ i, cl.ingestText s.sessionId = Except.ok (some i)) :
    (∀ s ∈ ss, s.sessionId ∈ st'.ingestedSessions)
    ∧ st.ingestedSessions ⊆ st'.ingestedSessions := by
  induction ss generalizing st ids k with
  | nil =>
    simp only [ingestGo] at h
    cases h
    exact ⟨by simp, fun x hx => hx⟩
  | cons s ss ih =>
    simp only [ingestGo] at h
    split at h
    · next hmem =>
      obtain ⟨hall, hsub⟩ := ih h (fun x hx => hok x (List.mem_cons_of_mem _ hx))
      refine ⟨fun x hx => ?_, hsub⟩
      rcases List.mem_cons.mp hx with hx | hx
      · exact hsub (hx ▸ hmem)
      · exact hall x hx
    · obtain ⟨i, hi⟩ := hok s (List.mem_cons_self _ _)
      rw [hi] at h
      cases hrec : ingestGo cl ss
          { st with ingestedSessions := s.sessionId :: st.ingestedSessions } with
      | error e => rw [hrec] at h; cases h
      | ok v =>
        obtain ⟨st'', ids', k'⟩ := v
        rw [hrec] at h
        cases h
        obtain ⟨hall, hsub⟩ := ih hrec (fun x hx => hok x (List.mem_cons_of_mem _ hx))
        refine ⟨fun x hx => ?_, fun x hx => hsub (List.mem_cons_of_mem _ hx)⟩
        rcases List.mem_cons.mp hx with hx | hx
        · exact hsub (hx ▸ List.mem_cons_self _ _)
        · exact hall x hx

theorem ingestGo_all_skipped {cl : GraphlitClient} {ss : List UnifiedSession}
    {st : ProviderState} (h : ∀ s ∈ ss, s.sessionId ∈ st.ingestedSessions) :
    ingestGo cl ss st = Except.ok (st, [], 0) := by
  induction ss with
  | nil => rfl
  | cons s ss ih =>
    simp only [ingestGo]
    rw [if_pos (h s (List.mem_cons_self _ _))]
    exact ih (fun x hx => h x (List.mem_cons_of_mem _ hx))

theorem getOrCreateCollection_caches {cl : GraphlitClient} {st st' : ProviderState}
    {name id : String} (h : getOrCreateCollection cl st name = Except.ok (id, st')) :
    st'.collectionCache.lookup name = some id := by
  unfold getOrCreateCollection at h
  cases hl : st.collectionCache.lookup name with
  | some i => rw [hl] at h; cases h; exact hl
  | none =>
    rw [hl] at h
    cases hq : cl.queryCollections name with
    | error e => rw [hq] at h; cases h
    | ok oid =>
      rw [hq] at h
      cases oid with
      | some i =>
        cases h
        simp [List.lookup]
      | none =>
        cases hc : cl.createCollection name with
        | error e => rw [hc] at h; cases h
        | ok oid' =>
          rw [hc] at h
          cases oid' with
          | none => cases h
          | some i =>
            cases h
            simp [List.lookup]

/-- Claim C5: repeated `ingest` calls with the same `containerTag` and
sessions address the same provider-side resource rather than duplicating
it: if a first call succeeded (every session received a document id),
then a second identical call skips every session — it issues zero
`ingestText` calls, returns an empty `documentIds` list, and leaves the
provider state unchanged. -/
theorem ingest_second_call_noop (cl : GraphlitClient) (st st1 : ProviderState)
    (sessions : List UnifiedSession) (containerTag : String) (ids : List String) (k : Nat)
    (h1 : ingest cl st sessions containerTag = Except.ok (st1, ids, k))
    (h2 : ∀ s ∈ sessions, ∃ i, cl.ingestText s.sessionId = Except.ok (some i)) :
    ingest cl st1 sessions containerTag = Except.ok (st1, [], 0) := by
  unfold ingest at h1 ⊢
  cases hg : getOrCreateCollection cl st (getConversationContainerTag containerTag) with
  | error e => rw [hg] at h1; cases h1
  | ok v =>
    obtain ⟨cid, st'⟩ := v
    rw [hg] at h1
    have hcache : st1.collectionCache.lookup (getConversationContainerTag containerTag)
        = some cid := by
      rw [ingestGo_cache_const h1]
      exact getOrCreateCollection_caches hg
    have hdone := (ingestGo_sessions_done h1 h2).1
    rw [show getOrCreateCollection cl st1 (getConversationContainerTag containerTag)
        = Except.ok (cid, st1) by unfold getOrCreateCollection; rw [hcache]]
    exact ingestGo_all_skipped hdone

/-- Concrete client for instantiating `ingest_second_call_noop`: no
collection exists yet, creation yields `"col-1"`, and ingesting session
`s` yields document id `"doc-" ++ s`. -/
def c5Client : GraphlitClient where
  queryCollections := fun _ => Except.ok none
  createCollection := fun _ => Except.ok (some ("col-1"))
  ingestText := fun sid => Except.ok (some ("doc-" ++ sid))
  isContentDone := fun _ _ => Except.ok true
  deleteAllContents := fun _ => Except.ok ()
  deleteCollection := fun _ => Except.ok ()

/-- Concrete instantiation of `ingest_second_call_noop`: after a first
`ingest` of session `"s1"` under tag `"conv-1-q0-run"` (which produced
`["doc-s1"]` with one `ingestText` call), the second identical call
returns no document ids, makes zero `ingestText` calls, and leaves the
state unchanged. -/
theorem ingest_second_call_noop_witness :
    ingest c5Client ⟨[("conv-1-run", "col-1")], ["s1"]⟩ [⟨"s1"⟩] ("conv-1-q0-run")
      = Except.ok (⟨[("conv-1-run", "col-1")], ["s1"]⟩, [], 0) :=
  ingest_second_call_noop c5Client ⟨[], []⟩ ⟨[("conv-1-run", "col-1")], ["s1"]⟩
    [⟨"s1"⟩] ("conv-1-q0-run") ["doc-s1"] 1 (by rfl)
    (fun s _ => ⟨"doc-" ++ s.sessionId, rfl⟩)

/-! ## graphlit provider: `awaitIndexing` (C1)

```ts
async awaitIndexing(result, _containerTag) {
    const contentIds = result.documentIds
    if (contentIds.length === 0) return
    const pollInterval = 500
    const timeout = 300000
    const startTime = Date.now()
    for (const contentId of contentIds) {
        while (Date.now() - startTime < timeout) {
            try {
                const status = await this.client.isContentDone(contentId)
                if (status.isContentDone?.result) break
            } catch (e) { throw new Error(`Indexing check failed ...`) }
            await new Promise(r => setTimeout(r, pollInterval))
        }
    }
}
```

Time is modelled as milliseconds elapsed since `startTime`: each sleep
advances it by `pollInterval`, the status calls themselves take no time,
and the `isContentDone` oracle may depend on the elapsed time.
`isContentDonePoll` is the inner `while` loop; it returns the elapsed
clock so the next content id of the `for` loop continues from it.  Note
the `while` loop has no code path that throws when the deadline expires:
the loop condition just becomes false and control falls through. -/

def pollInterval : Nat := 500

def timeoutMs : Nat := 300000

def isContentDonePoll (done : String → Nat → Except String Bool) (contentId : String)
    (elapsed : Nat) : Except String Nat :=
  if _h : elapsed < timeoutMs then
    match done contentId elapsed with
    | Except.error e =>
      Except.error ("Indexing check failed for content " ++ contentId ++ ": " ++ e)
    | Except.ok true => Except.ok elapsed
    | Except.ok false => isContentDonePoll done contentId (elapsed + pollInterval)
  else
    Except.ok elapsed
termination_by timeoutMs - elapsed
decreasing_by simp [pollInterval, timeoutMs] at *; omega

def awaitIndexingGo (done : String → Nat → Except String Bool) :
    List String → Nat → Except String Unit
  | [], _ => Except.ok ()
  | c :: cs, elapsed =>
    match isContentDonePoll done c elapsed with
    | Except.error e => Except.error e
    | Except.ok e' => awaitIndexingGo done cs e'

def awaitIndexing (done : String → Nat → Except String Bool) (documentIds : List String) :
    Except String Unit :=
  if documentIds.isEmpty then Except.ok () else awaitIndexingGo done documentIds 0

theorem isContentDonePoll_never_done (cid : String) (elapsed : Nat) :
    ∃ e', isContentDonePoll (fun _ _ => Except.ok false) cid elapsed = Except.ok e' := by
  generalize hm : timeoutMs - elapsed = m
  induction m using Nat.strong_induction_on generalizing elapsed with
  | _ m ih =>
    rw [isContentDonePoll]
    by_cases h : elapsed < timeoutMs
    · rw [dif_pos h]
      have hlt : timeoutMs - (elapsed + pollInterval) < m := by
        subst hm
        simp [pollInterval]
        omega
      exact ih _ hlt (elapsed + pollInterval) rfl
    · rw [dif_neg h]
      exact ⟨elapsed, rfl⟩

/-- Claim C1 (evaluation at the failing input): `awaitIndexing`, applied
to an ingest result with one document that the provider never reports as
indexed (`isContentDone` always `false`), returns normally once the
300000 ms deadline expires — it does not fail with an indexing-timeout
error, because the `while` loop has no throw after the deadline check.
(The "never blocks forever" half of the claim does hold: the loop bounds
itself by the deadline, which is what makes this function total.) -/
theorem awaitIndexing_silent_on_timeout :
    awaitIndexing (fun _ _ => Except.ok false) [("doc-1")] = Except.ok () := by
  obtain ⟨e', he⟩ := isContentDonePoll_never_done ("doc-1") 0
  rw [awaitIndexing]
  rw [show (["doc-1"] : List String).isEmpty = false from rfl]
  rw [if_neg (by simp)]
  rw [awaitIndexingGo]
  rw [he]
  rfl

/-! ## graphlit provider: `clear` (C4)

```ts
async clear(containerTag) {
    if (!this.client) throw new Error("Provider not initialized")
    const convContainerTag = this.getConversationContainerTag(containerTag)
    try {
        const collectionId = this.collectionCache.get(convContainerTag)
        if (!collectionId) {
            const existing = await this.client.queryCollections({ name: convContainerTag })
            const exactMatch = existing...find(c => c.name === convContainerTag)
            if (!exactMatch) { return }                       // already cleared: success
            await this.client.deleteAllContents(...)
            await this.client.deleteCollection(exactMatch.id)
        } else {
            await this.client.deleteAllContents(...)
            await this.client.deleteCollection(collectionId)
            this.collectionCache.delete(convContainerTag)
        }
    } catch (e) { logger.warn(...) }                          // swallowed: clear returns
}
```

`clearBody` is the body of the `try`; `clear` wraps it with the
uninitialized-client check and the swallow-everything `catch`.  The
cache entry is removed only on the cached path after both deletes
succeed, exactly as in the source. -/

def clearBody (cl : GraphlitClient) (st : ProviderState) (tag : String) :
    Except String ProviderState :=
  match st.collectionCache.lookup tag with
  | none =>
    match cl.queryCollections tag with
    | Except.error e => Except.error e
    | Except.ok none => Except.ok st
    | Except.ok (some id) =>
      match cl.deleteAllContents id with
      | Except.error e => Except.error e
      | Except.ok _ =>
        match cl.deleteCollection id with
        | Except.error e => Except.error e
        | Except.ok _ => Except.ok st
  | some id =>
    match cl.deleteAllContents id with
    | Except.error e => Except.error e
    | Except.ok _ =>
      match cl.deleteCollection id with
      | Except.error e => Except.error e
      | Except.ok _ =>
        Except.ok { st with
          collectionCache := st.collectionCache.filter (fun p => !(p.1 == tag)) }

def clear (client : Option GraphlitClient) (st : ProviderState) (containerTag : String) :
    Except String ProviderState :=
  match client with
  | none => Except.error ("Provider not initialized")
  | some cl =>
    match clearBody cl st (getConversationContainerTag containerTag) with
    | Except.ok st' => Except.ok st'
    | Except.error _ => Except.ok st

/-- Claim C4: on an initialized provider, `clear` never propagates an
exception (every call returns `ok`, whatever the client does), and an
already-cleared tag — no cached collection and no provider-side exact
name match — is treated as success with the state unchanged.  Since the
first conjunct holds for every state, calling `clear` a second time
after a successful clear also returns normally. -/
theorem clear_never_throws (cl : GraphlitClient) (st : ProviderState) (containerTag : String) :
    (∃ st', clear (some cl) st containerTag = Except.ok st')
    ∧ (st.collectionCache.lookup (getConversationContainerTag containerTag) = none →
        cl.queryCollections (getConversationContainerTag containerTag) = Except.ok none →
        clear (some cl) st containerTag = Except.ok st) := by
  constructor
  · show ∃ st', (match clearBody cl st (getConversationContainerTag containerTag) with
      | Except.ok st' => Except.ok st'
      | Except.error _ => Except.ok st) = Except.ok st'
    cases clearBody cl st (getConversationContainerTag containerTag) with
    | ok st' => exact ⟨st', rfl⟩
    | error e => exact ⟨st, rfl⟩
  · intro hcache hquery
    show (match clearBody cl st (getConversationContainerTag containerTag) with
      | Except.ok st' => Except.ok st'
      | Except.error _ => Except.ok st) = Except.ok st
    unfold clearBody
    rw [hcache, hquery]

/-- Concrete instantiation of `clear_never_throws`: with an empty cache
and a client that finds no exact-match collection, `clear` on tag
`"conv-3-q2-run-w"` succeeds and leaves the provider state unchanged. -/
theorem clear_never_throws_witness :
    (∃ st', clear (some c5Client) ⟨[], []⟩ ("conv-3-q2-run-w") = Except.ok st')
    ∧ clear (some c5Client) ⟨[], []⟩ ("conv-3-q2-run-w") = Except.ok ⟨[], []⟩ :=
  ⟨(clear_never_throws c5Client ⟨[], []⟩ ("conv-3-q2-run-w")).1,
   (clear_never_throws c5Client ⟨[], []⟩ ("conv-3-q2-run-w")).2 (by rfl) (by rfl)⟩

/-! ## evaluate.ts: `generateAnswer`, `judgeAnswer`, `evaluateQuestion`

```ts
async function generateAnswer(question, retrievedContext, questionDate) {
    try { const result = await generateText(...); return result.text.trim(); }
    catch (error) { return `Error generating answer: ${message}`; }
}

async function judgeAnswer(question, groundTruth, hypothesis) {
    try {
        const result = await generateText(...);
        const jsonMatch = result.text.match(/.../);
        if (!jsonMatch) throw new Error(...);  // Failed to parse JSON from model response
        const parsed = JSON.parse(jsonMatch[0]);
        return { label: parsed.label, explanation: parsed.explanation };
    } catch (error) {
        return { label: 0, explanation: `Evaluation error: ${message}` };
    }
}
```

The `generateText` calls are oracles of type `Except String String` (the
model either responds with text or the awaited call raises).  The
regex-match-then-`JSON.parse` extraction of `{label, explanation}` from
the judge text is an oracle `parse : String → Option (Int × String)`;
`none` covers both the no-match throw and a `JSON.parse` failure, which
land in the same `catch`.  Note `generateAnswer` never raises: an
answering-model error is converted into the returned string.
`evaluateQuestion` (evaluate.ts:279-351) calls both helpers; since
neither helper can raise, its own try/catch is the identity on this
model and the record is built from the helper results. -/

structure QuestionMetadata where
  questionId : String
  questionType : String
  question : String
  groundTruthAnswer : String
deriving DecidableEq, Repr

structure EvaluationResult where
  questionId : String
  questionType : String
  question : String
  groundTruth : String
  hypothesis : String
  label : Int
  explanation : String
deriving DecidableEq, Repr

def generateAnswer (gen : Except String String) : String :=
  match gen with
  | Except.ok text => text.trim
  | Except.error e => "Error generating answer: " ++ e

def judgeAnswer (gen : Except String String) (parse : String → Option (Int × String)) :
    Int × String :=
  match gen with
  | Except.error e => (0, "Evaluation error: " ++ e)
  | Except.ok text =>
    match parse text with
    | none => (0, "Evaluation error: Failed to parse JSON from model response")
    | some lp => lp

def evaluateQuestion (meta : QuestionMetadata) (answerGen : Except String String)
    (judgeGen : Except String String) (parse : String → Option (Int × String)) :
    EvaluationResult :=
  { questionId := meta.questionId
    questionType := meta.questionType
    question := meta.question
    groundTruth := meta.groundTruthAnswer
    hypothesis := generateAnswer answerGen
    label := (judgeAnswer judgeGen parse).1
    explanation := (judgeAnswer judgeGen parse).2 }

/-- Claim C3 (counterexample): the claim asserts that whenever the
answer generation fails with an error, the recorded label is 0, never 1.
But `generateAnswer` swallows the error into the hypothesis string
`"Error generating answer: ..."`, which is then judged like any answer;
here the parsed judge verdict is label 1, and 1 is recorded. -/
theorem evaluateQuestion_answer_error_label_one :
    (evaluateQuestion ⟨"q1", "single-session-user", "What city?", "Paris"⟩
        (Except.error ("network timeout"))
        (Except.ok ("label 1: the response matches"))
        (fun _ => some (1, "the response matches"))).label = 1
    ∧ (evaluateQuestion ⟨"q1", "single-session-user", "What city?", "Paris"⟩
        (Except.error ("network timeout"))
        (Except.ok ("label 1: the response matches"))
        (fun _ => some (1, "the response matches"))).hypothesis
      = "Error generating answer: network timeout"
    ∧ (1 : Int) ≠ 0 := by
  exact ⟨rfl, rfl, by decide⟩

/-- Claim C3 (amended): judge-path errors always record label 0 — when
the judge call itself fails, and when the judge response cannot be
parsed.  An answer-generation error, however, does not raise at the
evaluation level: its message becomes the hypothesis (prefixed
`"Error generating answer: "`) and the recorded label is whatever the
judge assigns to that hypothesis, which can be 1. -/
theorem evaluateQuestion_judge_errors_label_zero (meta : QuestionMetadata)
    (answerGen : Except String String) (parse : String → Option (Int × String))
    (e t : String) (hp : parse t = none) :
    (evaluateQuestion meta answerGen (Except.error e) parse).label = 0
    ∧ (evaluateQuestion meta answerGen (Except.ok t) parse).label = 0
    ∧ ∀ eg jg, (evaluateQuestion meta (Except.error eg) jg parse).hypothesis
        = "Error generating answer: " ++ eg
      ∧ (evaluateQuestion meta (Except.error eg) jg parse).label = (judgeAnswer jg parse).1 := by
  refine ⟨rfl, ?_, fun eg jg => ⟨rfl, rfl⟩⟩
  show (judgeAnswer (Except.ok t) parse).1 = 0
  simp only [judgeAnswer]
  rw [hp]

/-- Concrete instantiation of `evaluateQuestion_judge_errors_label_zero`
with a parse oracle that never matches. -/
theorem evaluateQuestion_judge_errors_label_zero_witness :
    (evaluateQuestion ⟨"q2", "t", "q", "g"⟩ (Except.ok ("Paris."))
        (Except.error ("quota exceeded")) (fun _ => none)).label = 0
    ∧ (evaluateQuestion ⟨"q2", "t", "q", "g"⟩ (Except.ok ("Paris."))
        (Except.ok ("no json here")) (fun _ => none)).label = 0
    ∧ ∀ eg jg, (evaluateQuestion ⟨"q2", "t", "q", "g"⟩ (Except.error eg) jg
          (fun _ => none)).hypothesis = "Error generating answer: " ++ eg
      ∧ (evaluateQuestion ⟨"q2", "t", "q", "g"⟩ (Except.error eg) jg
          (fun _ => none)).label = (judgeAnswer jg (fun _ => none)).1 :=
  evaluateQuestion_judge_errors_label_zero ⟨"q2", "t", "q", "g"⟩ (Except.ok ("Paris."))
    (fun _ => none) ("quota exceeded") ("no json here") rfl

/-! ## evaluate.ts: the `evaluateAll` resume/aggregation loop

```ts
async function evaluateAll() {
    let evaluations = [];
    let processedQuestionIds = new Set();
    if (existsSync(outputPath)) { ...
        evaluations = existing.evaluations;
        processedQuestionIds = new Set(evaluations.map(e => e.questionId)); }
    for (const filename of resultFiles) {
        const questionId = resultData.metadata.questionId;
        if (processedQuestionIds.has(questionId)) { continue; }
        const evaluation = await evaluateQuestion(resultData);
        evaluations.push(evaluation);
        const total = evaluations.length;
        const correct = evaluations.filter(e => e.label === 1).length;
        const accuracy = total > 0 ? (correct / total) * 100 : 0;
        ... writeFileSync(... accuracy.toFixed(2) + "%" ...)
    }
    const total = evaluations.length;
    const correct = evaluations.filter(e => e.label === 1).length;
    const accuracy = total > 0 ? (correct / total) * 100 : 0;
}
```

A result file is modelled by its parsed metadata together with the two
model oracles its evaluation would consume (files whose `JSON.parse`
fails are skipped by the catch of the loop without producing a record, so
they simply do not appear in the list).  `evaluateAllGo` returns the
final `evaluations` list and the number of `evaluateQuestion`
invocations, i.e. of questions for which external model calls are made.
Note the loop adds newly evaluated ids to `evaluations` but never to
`processedQuestionIds`, which is fixed at resume time — the embedding
mirrors this. -/

structure ResultFile where
  metadata : QuestionMetadata
  answerGen : Except String String
  judgeGen : Except String String
deriving Repr

def processedQuestionIds (evals : List EvaluationResult) : List String :=
  evals.map (fun e => e.questionId)

def evaluateAllGo (parse : String → Option (Int × String)) (processed : List String) :
    List ResultFile → List EvaluationResult → List EvaluationResult × Nat
  | [], evals => (evals, 0)
  | f :: fs, evals =>
    if f.metadata.questionId ∈ processed then
      evaluateAllGo parse processed fs evals
    else
      let r := evaluateAllGo parse processed fs
        (evals ++ [evaluateQuestion f.metadata f.answerGen f.judgeGen parse])
      (r.1, r.2 + 1)

def evaluateAll (parse : String → Option (Int × String)) (existing : List EvaluationResult)
    (files : List ResultFile) : List EvaluationResult × Nat :=
  evaluateAllGo parse (processedQuestionIds existing) files existing

/-- Source: `evaluations.filter(e => e.label === 1).length`. -/
def correctCount (evals : List EvaluationResult) : Nat :=
  (evals.filter (fun e => e.label == 1)).length

/-- Source: `total > 0 ? (correct / total) * 100 : 0`, over exact rationals. -/
def accuracyPct (evals : List EvaluationResult) : ℚ :=
  if evals.length > 0 then ((correctCount evals : ℚ) / (evals.length : ℚ)) * 100 else 0

/-- JavaScript `x.toFixed(2)` for the nonnegative accuracy values of the
script: round half up to integer hundredths. -/
def jsToFixed2 (q : ℚ) : Int := ⌊q * 100 + 1 / 2⌋

def fixed2String (q : ℚ) : String :=
  toString ((jsToFixed2 q).toNat / 100) ++ "."
    ++ (if (jsToFixed2 q).toNat % 100 < 10 then "0" else "")
    ++ toString ((jsToFixed2 q).toNat % 100)

/-- Source: `accuracy.toFixed(2) + "%"` as written to the report metadata and
the console summary. -/
def reportedAccuracy (evals : List EvaluationResult) : String :=
  fixed2String (accuracyPct evals) ++ "%"

theorem evaluateAllGo_characterization (parse : String → Option (Int × String))
    (processed : List String) (files : List ResultFile) (evals : List EvaluationResult) :
    evaluateAllGo parse processed files evals
      = (evals ++ (files.filter (fun f => !(processed.contains f.metadata.questionId))).map
            (fun f => evaluateQuestion f.metadata f.answerGen f.judgeGen parse),
          (files.filter (fun f => !(processed.contains f.metadata.questionId))).length) := by
  induction files generalizing evals with
  | nil => simp [evaluateAllGo]
  | cons f fs ih =>
    simp only [evaluateAllGo]
    by_cases h : f.metadata.questionId ∈ processed
    · rw [if_pos h, ih]
      simp [List.filter_cons, h]
    · rw [if_neg h, ih]
      simp [List.filter_cons, h]

/-- Claim C2 (amended): for every set of result files, the final
`evaluations` list contains one record per processed file — including
the records whose evaluation path errored, which carry label 0 — and the
reported accuracy is `correct / total * 100` where `total` is the length
of that whole list.  Questions that failed during answering or judging
are therefore inside the accuracy denominator (as label-0 records), not
excluded from it, and no separate failure count exists in the output. -/
theorem evaluateAll_accuracy_denominator (parse : String → Option (Int × String))
    (files : List ResultFile) :
    (evaluateAll parse [] files).1
      = files.map (fun f => evaluateQuestion f.metadata f.answerGen f.judgeGen parse)
    ∧ (evaluateAll parse [] files).1.length = files.length
    ∧ accuracyPct (evaluateAll parse [] files).1
      = (if files.length > 0 then
          ((correctCount (evaluateAll parse [] files).1 : ℚ) / (files.length : ℚ)) * 100
        else 0) := by
  have h := evaluateAllGo_characterization parse [] files []
  have h1 : (evaluateAll parse [] files).1
      = files.map (fun f => evaluateQuestion f.metadata f.answerGen f.judgeGen parse) := by
    show (evaluateAllGo parse (processedQuestionIds []) files []).1 = _
    rw [show processedQuestionIds [] = [] from rfl, h]
    simp
  refine ⟨h1, ?_, ?_⟩
  · rw [h1]
    simp
  · rw [accuracyPct, h1]
    simp

def c2Parse : String → Option (Int × String) :=
  fun t => if t == "good json" then some (1, "correct") else none

def c2FileA : ResultFile :=
  { metadata := ⟨"q1", "t", "question one", "truth one"⟩
    answerGen := Except.ok ("Answer one.")
    judgeGen := Except.ok ("good json") }

def c2FileB : ResultFile :=
  { metadata := ⟨"q2", "t", "question two", "truth two"⟩
    answerGen := Except.ok ("Answer two.")
    judgeGen := Except.error ("judge unavailable") }

/-- Claim C2 (counterexample): with two result files — one judged
correct, one whose judge call fails — the failed question is recorded
with label 0 and an error explanation, and it stays in the accuracy
denominator: the reported accuracy is 50, not the 100 the claimed
"correct / successfully evaluated" (1 of 1) would give; no separate
failure count exists in the output metadata. -/
theorem evaluateAll_accuracy_counterexample :
    correctCount (evaluateAll c2Parse [] [c2FileA, c2FileB]).1 = 1
    ∧ (evaluateAll c2Parse [] [c2FileA, c2FileB]).1.length = 2
    ∧ ((evaluateAll c2Parse [] [c2FileA, c2FileB]).1.map (fun e => e.label)) = [1, 0]
    ∧ ((evaluateAll c2Parse [] [c2FileA, c2FileB]).1.map (fun e => e.explanation))
      = ["correct", "Evaluation error: judge unavailable"]
    ∧ accuracyPct (evaluateAll c2Parse [] [c2FileA, c2FileB]).1 = 50
    ∧ (50 : ℚ) ≠ ((1 : ℚ) / (1 : ℚ)) * 100 := by
  have h1 : correctCount (evaluateAll c2Parse [] [c2FileA, c2FileB]).1 = 1 := by decide
  have h2 : (evaluateAll c2Parse [] [c2FileA, c2FileB]).1.length = 2 := by decide
  refine ⟨h1, h2, by decide, by decide, ?_, by norm_num⟩
  rw [accuracyPct, h1, h2]
  norm_num

/-- Claim C6: when the existing evaluation output already covers every
questionId among the selected result files, re-running the evaluation
loop skips every file: no `evaluateQuestion` call is made (hence no
external model call), and the evaluations list and the accuracy are
unchanged. -/
theorem evaluateAll_resume_noop (parse : String → Option (Int × String))
    (existing : List EvaluationResult) (files : List ResultFile)
    (h : ∀ f ∈ files, f.metadata.questionId ∈ processedQuestionIds existing) :
    evaluateAll parse existing files = (existing, 0)
    ∧ accuracyPct (evaluateAll parse existing files).1 = accuracyPct existing := by
  have hfilter : files.filter
      (fun f => !((processedQuestionIds existing).contains f.metadata.questionId)) = [] := by
    rw [List.filter_eq_nil_iff]
    intro f hf
    simpa using h f hf
  have hmain : evaluateAll parse existing files = (existing, 0) := by
    show evaluateAllGo parse (processedQuestionIds existing) files existing = (existing, 0)
    rw [evaluateAllGo_characterization, hfilter]
    simp
  exact ⟨hmain, by rw [hmain]⟩

def c6Existing : List EvaluationResult := [⟨"q1", "t", "q", "g", "hyp", 1, "expl"⟩]

def c6File : ResultFile := ⟨⟨"q1", "t", "q", "g"⟩, Except.ok ("a"), Except.ok ("b")⟩

/-- Concrete instantiation of `evaluateAll_resume_noop`: one result file
whose questionId `"q1"` is already present in the existing output. -/
theorem evaluateAll_resume_noop_witness :
    evaluateAll (fun _ => none) c6Existing [c6File] = (c6Existing, 0)
    ∧ accuracyPct (evaluateAll (fun _ => none) c6Existing [c6File]).1
      = accuracyPct c6Existing :=
  evaluateAll_resume_noop (fun _ => none) c6Existing [c6File] (by decide)

/-! ## Claim C8: the reported accuracy string for labels `[1, 1, 0]`

The script computes `(correct / total) * 100` in IEEE doubles and
formats it with `accuracy.toFixed(2) + "%"`.  For 2 of 3 correct, the
double is ≈66.66666666666666 and `toFixed(2)` prints `"66.67"` — the
same two-decimal rounding the exact rational 200/3 produces, so the
rational model agrees with the script at this input. -/

def c8Evals : List EvaluationResult :=
  [⟨"q1", "t", "q", "g", "h", 1, "e"⟩, ⟨"q2", "t", "q", "g", "h", 1, "e"⟩,
   ⟨"q3", "t", "q", "g", "h", 0, "e"⟩]

theorem c8Evals_accuracy_aux :
    accuracyPct c8Evals = 200 / 3 ∧ reportedAccuracy c8Evals = "66.67%" := by
  have ha : accuracyPct c8Evals = 200 / 3 := by
    have h1 : correctCount c8Evals = 2 := rfl
    have h2 : c8Evals.length = 3 := rfl
    rw [accuracyPct, h1, h2]
    norm_num
  have hf : jsToFixed2 ((200 : ℚ) / 3) = 6667 := by
    rw [jsToFixed2]
    norm_num [Int.floor_eq_iff]
  have hs : fixed2String ((200 : ℚ) / 3) = "66.67" := by
    rw [fixed2String, hf]
    decide
  refine ⟨ha, ?_⟩
  rw [reportedAccuracy, ha, hs]
  decide

/-- Claim C8 (counterexample): for evaluated labels `[1, 1, 0]` the
accuracy string actually produced by `(correct / total) * 100` followed
by `toFixed(2) + "%"` is `"66.67%"`, not the `"66.7%"` the claim
states. -/
theorem reportedAccuracy_not_66_7 :
    reportedAccuracy c8Evals = "66.67%" ∧ ("66.67%" : String) ≠ "66.7%" :=
  ⟨c8Evals_accuracy_aux.2, by decide⟩

/-- Claim C8 (amended): with exactly three evaluated questions carrying
labels `[1, 1, 0]`, the accuracy is the exact 200/3 ≈ 66.67 percent and
the reported figure is `"66.67%"` (two decimals, as `toFixed(2)`
formats it). -/
theorem reportedAccuracy_66_67 :
    accuracyPct c8Evals = 200 / 3 ∧ reportedAccuracy c8Evals = "66.67%" :=
  c8Evals_accuracy_aux

/-! ## cleanup.ts: the per-run clearing loop of `cleanupCommand`

```ts
for (const runId of providerRunIds) {
    const checkpoint = checkpointManager.load(runId)!
    const containerTags = [...new Set(Object.values(checkpoint.questions).map(q => q.containerTag))]
    for (const containerTag of containerTags) {
        try {
            await provider.clear(containerTag)
            totalCleaned++
        } catch (e) {
            logger.warn(`Failed to clear ${containerTag}: ${error}`)
            totalFailed++
        }
    }
}
```

A run is modelled by the `containerTag` list of its checkpoint;
`[...new Set(tags)]` preserves insertion order keeping first
occurrences, i.e. `dedupBy id`.  `provider.clear` is an oracle; the
fold is written in `Except` so that "never propagates a clear error"
is the theorem that the result is always `ok`. -/

def cleanupTagsGo (clearO : String → Except String Unit) :
    List String → Nat × Nat → Except String (Nat × Nat)
  | [], acc => Except.ok acc
  | t :: ts, (c, f) =>
    match clearO t with
    | Except.ok _ => cleanupTagsGo clearO ts (c + 1, f)
    | Except.error _ => cleanupTagsGo clearO ts (c, f + 1)

def cleanupRun (clearO : String → Except String Unit) (tags : List String)
    (acc : Nat × Nat) : Except String (Nat × Nat) :=
  cleanupTagsGo clearO (dedupBy id tags) acc

def cleanupRuns (clearO : String → Except String Unit) :
    List (List String) → Nat × Nat → Except String (Nat × Nat)
  | [], acc => Except.ok acc
  | tags :: rest, acc =>
    match cleanupRun clearO tags acc with
    | Except.error e => Except.error e
    | Except.ok acc' => cleanupRuns clearO rest acc'

/-- Portion of `totalCleaned` contributed by one run: deduplicated tags whose clear
call succeeds. -/
def clearedCount (clearO : String → Except String Unit) (tags : List String) : Nat :=
  (dedupBy id tags).countP (fun t => (clearO t).isOk)

/-- Portion of `totalFailed` contributed by one run: deduplicated tags whose clear
call raises (caught and counted). -/
def failedCount (clearO : String → Except String Unit) (tags : List String) : Nat :=
  (dedupBy id tags).countP (fun t => !(clearO t).isOk)

theorem cleanupTagsGo_spec (clearO : String → Except String Unit) (ts : List String)
    (c f : Nat) :
    cleanupTagsGo clearO ts (c, f)
      = Except.ok (c + ts.countP (fun t => (clearO t).isOk),
          f + ts.countP (fun t => !(clearO t).isOk)) := by
  induction ts generalizing c f with
  | nil => simp [cleanupTagsGo]
  | cons t ts ih =>
    simp only [cleanupTagsGo]
    cases ht : clearO t with
    | ok u =>
      show cleanupTagsGo clearO ts (c + 1, f) = _
      rw [ih]
      have hok : (clearO t).isOk = true := by rw [ht]; rfl
      refine congrArg Except.ok ?_
      rw [Prod.mk.injEq]
      rw [List.countP_cons, List.countP_cons]
      simp [hok]
      omega
    | error e =>
      show cleanupTagsGo clearO ts (c, f + 1) = _
      rw [ih]
      have hok : (clearO t).isOk = false := by rw [ht]; rfl
      refine congrArg Except.ok ?_
      rw [Prod.mk.injEq]
      rw [List.countP_cons, List.countP_cons]
      simp [hok]
      omega

/-- Claim C7: the cleanup command consumes, for each run, the containerTag list
with duplicates removed (first occurrences, every original tag still
represented) and attempts `provider.clear` on every deduplicated tag
exactly once: each tag is counted either as cleaned or as failed and the
two counts exhaust the deduplicated list, a clear failure is caught and
counted without stopping the remaining tags or runs, and the loop never
propagates a clear error (it always returns `ok` totals). -/
theorem cleanupRuns_spec (clearO : String → Except String Unit)
    (runs : List (List String)) :
    cleanupRuns clearO runs (0, 0)
      = Except.ok ((runs.map (fun tags => clearedCount clearO tags)).sum,
          (runs.map (fun tags => failedCount clearO tags)).sum)
    ∧ (∀ tags : List String,
        clearedCount clearO tags + failedCount clearO tags = (dedupBy id tags).length)
    ∧ (∀ tags : List String, (dedupBy id tags).Nodup)
    ∧ (∀ (tags : List String) (t : String), t ∈ dedupBy id tags ↔ t ∈ tags) := by
  refine ⟨?_, ?_, ?_, ?_⟩
  · have hacc : ∀ (rs : List (List String)) (c f : Nat),
        cleanupRuns clearO rs (c, f)
          = Except.ok (c + (rs.map (fun tags => clearedCount clearO tags)).sum,
              f + (rs.map (fun tags => failedCount clearO tags)).sum) := by
      intro rs
      induction rs with
      | nil => intro c f; simp [cleanupRuns]
      | cons tags rest ih =>
        intro c f
        simp only [cleanupRuns, cleanupRun]
        rw [cleanupTagsGo_spec]
        show cleanupRuns clearO rest
          (c + (dedupBy id tags).countP (fun t => (clearO t).isOk),
            f + (dedupBy id tags).countP (fun t => !(clearO t).isOk)) = _
        rw [ih]
        refine congrArg Except.ok ?_
        rw [Prod.mk.injEq]
        simp only [List.map_cons, List.sum_cons, clearedCount, failedCount]
        exact ⟨by omega, by omega⟩
    have h := hacc runs 0 0
    simpa using h
  · intro tags
    rw [clearedCount, failedCount]
    have hlen := List.length_eq_countP_add_countP (fun t => (clearO t).isOk) (dedupBy id tags)
    have hcongr : List.countP (fun a => decide ¬((clearO a).isOk = true)) (dedupBy id tags)
        = List.countP (fun t => !(clearO t).isOk) (dedupBy id tags) := by
      apply List.countP_congr
      intro a _
      cases h : (clearO a).isOk <;> simp [h]
    rw [hcongr] at hlen
    omega
  · intro tags
    have h := pairwise_dedupByGo (id : String → String) [] tags
    exact h.imp (fun hne => hne)
  · intro tags t
    constructor
    · intro ht
      exact dedupByGo_subset _ _ _ ht
    · intro ht
      obtain ⟨b, hb, hk⟩ := @exists_mem_dedupByGo String String _ id [] tags t ht
        (List.not_mem_nil _)
      exact (show b = t from hk) ▸ hb

/-- Concrete instantiation of `evaluateAll_accuracy_denominator` on the
two-file scenario. -/
theorem evaluateAll_accuracy_denominator_witness :
    (evaluateAll c2Parse [] [c2FileA, c2FileB]).1
      = [c2FileA, c2FileB].map (fun f => evaluateQuestion f.metadata f.answerGen f.judgeGen c2Parse)
    ∧ (evaluateAll c2Parse [] [c2FileA, c2FileB]).1.length = 2 :=
  ⟨(evaluateAll_accuracy_denominator c2Parse [c2FileA, c2FileB]).1,
   (evaluateAll_accuracy_denominator c2Parse [c2FileA, c2FileB]).2.1⟩

def c7Clear : String → Except String Unit :=
  fun t => if t == "bad" then Except.error ("boom") else Except.ok ()

/-- Concrete instantiation of `cleanupRuns_spec`: two runs, the first
with a duplicated tag and one tag whose clear fails; the loop still
returns `ok` with 2 cleaned and 1 failed. -/
theorem cleanupRuns_spec_witness :
    cleanupRuns c7Clear [["a", "bad", "a"], ["b"]] (0, 0) = Except.ok (2, 1)
    ∧ clearedCount c7Clear ["a", "bad", "a"] + failedCount c7Clear ["a", "bad", "a"]
      = (dedupBy id ["a", "bad", "a"]).length := by
  constructor
  · rw [(cleanupRuns_spec c7Clear [["a", "bad", "a"], ["b"]]).1]
    rfl
  · exact (cleanupRuns_spec c7Clear [["a", "bad", "a"], ["b"]]).2.1 ["a", "bad", "a"]
